import Mathlib

/-!
Shallow embedding of the sydent identity-server core. Duration parsing
(sydent.py) and the Teletopia SMS gateway client (teletopia.py) are translated
directly from the source. The association store, invite-token store, binder,
federation verifier and replication pusher, whose implementation files are not
part of the visible repository excerpt, are modelled from the specification,
and the email-redaction utility is modelled to reproduce the outputs asserted
by the tests in test_invites.py.
-/

namespace Sydent

/-- Characters stripped by Python int around a numeral (ASCII whitespace). -/
def isPySpace (c : Char) : Bool :=
  c = ' ' || c = '\t' || c = '\n' || c = '\r' || c = '\x0b' || c = '\x0c'

/-- Strip leading and trailing whitespace, as Python int does before parsing. -/
def stripPySpace (cs : List Char) : List Char :=
  ((cs.dropWhile isPySpace).reverse.dropWhile isPySpace).reverse

/-- Numeric value of a run of decimal digits. -/
def decDigitsVal (cs : List Char) : Nat :=
  cs.foldl (fun acc c => acc * 10 + (c.toNat - '0'.toNat)) 0

/-- Parse an optional sign followed by a nonempty run of decimal digits. -/
def pyIntCore (l : List Char) : Option Int :=
  match l with
  | [] => none
  | c :: rest =>
      if c = '+' then
        if !rest.isEmpty && rest.all Char.isDigit then
          some (decDigitsVal rest : Int)
        else none
      else if c = '-' then
        if !rest.isEmpty && rest.all Char.isDigit then
          some (-(decDigitsVal rest : Int))
        else none
      else if (c :: rest).all Char.isDigit then
        some (decDigitsVal (c :: rest) : Int)
      else none

/-- Python int applied to a string: surrounding whitespace, an optional sign,
then a nonempty run of decimal digits; anything else raises ValueError,
modelled as none. -/
def pyInt (cs : List Char) : Option Int :=
  pyIntCore (stripPySpace cs)

/-- The unit suffixes understood by parse_duration and their sizes in
milliseconds (second, minute, hour, day, week, year), from sydent.py. -/
def sizes (c : Char) : Option Int :=
  if c = 's' then some 1000
  else if c = 'm' then some (60 * 1000)
  else if c = 'h' then some (60 * 60 * 1000)
  else if c = 'd' then some (24 * 60 * 60 * 1000)
  else if c = 'w' then some (7 * 24 * 60 * 60 * 1000)
  else if c = 'y' then some (365 * 24 * 60 * 60 * 1000)
  else none

/-- parse_duration from sydent.py: an empty input yields None; otherwise try
int(value); on ValueError, if the last character is a known unit suffix,
parse the remaining prefix and scale by the unit, and otherwise the source
retries int(value) with size 1, which raises ValueError again (modelled as
Except.error). -/
def parse_duration (value : List Char) : Except Unit (Option Int) :=
  if value.isEmpty then Except.ok none
  else
    match pyInt value with
    | some n => Except.ok (some n)
    | none =>
        match value.getLast? with
        | none => Except.error ()
        | some suffix =>
            match sizes suffix with
            | some size =>
                match pyInt value.dropLast with
                | some n => Except.ok (some (n * size))
                | none => Except.error ()
            | none => Except.error ()

/-- The TON (type of number) codes by originator type, from teletopia.py. -/
def TONS (t : String) : Option Nat :=
  if t = "short" then some 1
  else if t = "long" then some 4
  else if t = "alpha" then some 5
  else none

/-- tonFromType from teletopia.py: look the originator type up in TONS, and
raise for an unknown type (modelled as Except.error). -/
def tonFromType (t : String) : Except Unit Nat :=
  match TONS t with
  | some n => Except.ok n
  | none => Except.error ()

/-- The originator of an SMS as passed to sendTextSMS: display text and
number type. -/
structure SmsSource where
  text : String
  type : String
deriving DecidableEq

/-- The parts of the gateway reply that sendTextSMS inspects: the HTTP status
code, and the accepted flag and status code of the first entry of the
responses array. -/
structure TeletopiaResponse where
  code : Nat
  accepted : Int
  statusCode : Int
deriving DecidableEq

/-- TeletopiaSMS.sendTextSMS from teletopia.py, as a function of the optional
source and of the gateway reply. A missing source defaults to an alpha
originator; tonFromType is evaluated while the request body is built, so an
unknown source type raises before any gateway exchange; afterwards the reply
must have HTTP status 200, accepted = 1, and statusCode 1000 or 2000, else an
exception is raised. -/
def sendTextSMS (source : Option SmsSource) (resp : TeletopiaResponse) :
    Except Unit Unit :=
  let src := match source with
    | none => ({ text := "Matrix", type := "alpha" } : SmsSource)
    | some s => s
  match tonFromType src.type with
  | Except.error e => Except.error e
  | Except.ok _ =>
      if resp.code ≠ 200 then Except.error ()
      else if resp.accepted ≠ 1 then Except.error ()
      else if resp.statusCode = 1000 ∨ resp.statusCode = 2000 then Except.ok ()
      else Except.error ()

/-- Modelled from the spec: the per-string rule of the email-redaction utility
(StoreInviteServlet, implementation not in the excerpt). It reveals the first
charactersToReveal characters followed by an ellipsis; a string no longer than
the threshold instead reveals 3 characters when longer than 5, 1 character when
longer than 1, and nothing otherwise. This reproduces every output asserted by
test_invited_email_address_obfuscation and its fallback variant. -/
def redact (s : List Char) (charactersToReveal : Nat) : List Char :=
  if s.length ≤ charactersToReveal then
    if 5 < s.length then s.take 3 ++ [ '.', '.', '.' ]
    else if 1 < s.length then s.take 1 ++ [ '.', '.', '.' ]
    else [ '.', '.', '.' ]
  else s.take charactersToReveal ++ [ '.', '.', '.' ]

/-- Split a character list on every occurrence of a separator character, as
Python str.split does (adjacent separators produce empty components). -/
def splitSep (c : Char) : List Char → List (List Char)
  | [] => [[]]
  | x :: xs =>
      match splitSep c xs with
      | [] => [[x]]
      | p :: ps => if x = c then [] :: p :: ps else (x :: p) :: ps

/-- Rejoin components with the separator character between them. -/
def joinSep (c : Char) : List (List Char) → List Char
  | [] => []
  | [p] => p
  | p :: ps => p ++ c :: joinSep c ps

/-- Modelled from the spec: redaction of the username part. With no separator
configured the whole username is redacted as one string; with a separator each
nonempty component between separators is redacted independently and empty
components are kept as they are, matching the asserted outputs for trailing
and repeated separators. -/
def redactUsername (sep : Option Char) (username : List Char) (reveal : Nat) :
    List Char :=
  match sep with
  | none => redact username reveal
  | some c =>
      joinSep c ((splitSep c username).map
        (fun p => if p.isEmpty then p else redact p reveal))

/-- Modelled from the spec: redact_email_address splits the address at the
first at-sign, redacts the username part (per component when a separator
string is configured) with the username reveal count, and the domain part
with the domain reveal count. -/
def redact_email_address (sep : Option Char) (uReveal dReveal : Nat)
    (addr : List Char) : List Char :=
  let username := addr.takeWhile (fun c => c ≠ '@')
  let domain := (addr.dropWhile (fun c => c ≠ '@')).drop 1
  redactUsername sep username uReveal ++ '@' :: redact domain dReveal

/-- A row of the invite_tokens table: the invited identifier, the room and
inviting account, the opaque token, and sent_ts, null until the onBind
notification for this token has been delivered. -/
structure InviteToken where
  medium : String
  address : String
  room_id : String
  sender : String
  token : String
  sent_ts : Option Nat
deriving DecidableEq

/-- Modelled from the spec: the durable invite-token table owned by
JoinTokenStore. -/
structure JoinTokenStore where
  invite_tokens : List InviteToken
deriving DecidableEq

/-- Modelled from the spec: JoinTokenStore.storeToken inserts a pending row
with null sent_ts. -/
def storeToken (s : JoinTokenStore) (m a room sender tok : String) :
    JoinTokenStore :=
  { invite_tokens := s.invite_tokens ++
      [{ medium := m, address := a, room_id := room, sender := sender,
         token := tok, sent_ts := none }] }

/-- Modelled from the spec: JoinTokenStore.getTokens returns the pending
tokens for an identifier; it filters out sent tokens (those with non-null
sent_ts), so a delivered token is never handed out for delivery again. -/
def getTokens (s : JoinTokenStore) (m a : String) : List InviteToken :=
  s.invite_tokens.filter
    (fun t => t.medium = m && t.address = a && t.sent_ts.isNone)

/-- The rows the tests inspect directly in the table for an identifier,
bypassing the sent-token filter of getTokens. -/
def tokenRows (s : JoinTokenStore) (m a : String) : List InviteToken :=
  s.invite_tokens.filter (fun t => t.medium = m && t.address = a)

/-- Modelled from the spec: the default of the delete_tokens_on_bind
configuration option — delivered tokens are deleted unless retention is
configured. -/
def delete_tokens_on_bind_default : Bool := true

/-- Modelled from the spec: the invite-resolution pass a bind runs for its
identifier. Every token returned by getTokens is attempted for onBind
delivery (the second component of the result); for each successfully
delivered token (per the delivered predicate) the row is deleted when
deleteOnBind holds and otherwise kept with sent_ts set to the current time;
a token whose delivery failed is left untouched for a later retry pass. -/
def processInvites (deleteOnBind : Bool) (delivered : InviteToken → Bool)
    (now : Nat) (s : JoinTokenStore) (m a : String) :
    JoinTokenStore × List InviteToken :=
  let toSend := getTokens s m a
  let sentOk := toSend.filter delivered
  (if deleteOnBind then
    { invite_tokens := s.invite_tokens.filter (fun t => !(sentOk.contains t)) }
  else
    { invite_tokens := s.invite_tokens.map
        (fun t => if sentOk.contains t then { t with sent_ts := some now }
                  else t) },
   toSend)

/-- An operation on the invite-token table: a new invite being stored, or the
invite-resolution pass of a bind. -/
inductive InviteOp where
  | store (m a room sender tok : String)
  | bind (m a : String) (deleteOnBind : Bool)
      (delivered : InviteToken → Bool) (now : Nat)

/-- Apply one invite-table operation. -/
def applyInviteOp (s : JoinTokenStore) : InviteOp → JoinTokenStore
  | .store m a room sender tok => storeToken s m a room sender tok
  | .bind m a del f now => (processInvites del f now s m a).1

/-- A row of the associations table: the bound identifier and account, the
replication sequence number, the canonical signed payload, whether the row is
a deletion tombstone, and whether it is the active (neither superseded nor
deleted) row for its identifier. -/
structure AssocRow where
  medium : String
  address : String
  account_id : String
  sequence_no : Nat
  signed_payload : String
  tombstone : Bool
  active : Bool
deriving DecidableEq

/-- Modelled from the spec: the durable associations table together with the
append-only sequence counter used as replication cursor position. -/
structure AssociationStore where
  rows : List AssocRow
  nextSeq : Nat
deriving DecidableEq

/-- The association store of a freshly initialised server. -/
def emptyAssocStore : AssociationStore :=
  { rows := [], nextSeq := 1 }

/-- Modelled from the spec: the canonical signed payload the binder obtains
from the KeyManager over an association record. -/
def signPayload (m a acct : String) : String :=
  "ed25519:" ++ m ++ ":" ++ a ++ ":" ++ acct

/-- Modelled from the spec: AssociationStore.upsert marks any active
association for the identifier superseded and inserts the replacement with a
fresh sequence number, as one atomic unit; it also returns the inserted row. -/
def upsert (s : AssociationStore) (m a acct payload : String) :
    AssociationStore × AssocRow :=
  let newRow : AssocRow :=
    { medium := m, address := a, account_id := acct,
      sequence_no := s.nextSeq, signed_payload := payload,
      tombstone := false, active := true }
  ({ rows := s.rows.map
        (fun r => if r.medium = m ∧ r.address = a then
                    { r with active := false }
                  else r) ++ [newRow],
     nextSeq := s.nextSeq + 1 }, newRow)

/-- Modelled from the spec: AssociationStore.getActive returns the active
association for an identifier, if any. -/
def getActive (s : AssociationStore) (m a : String) : Option AssocRow :=
  s.rows.find? (fun r => r.medium = m && r.address = a && r.active)

/-- The number of active rows an identifier has in the table. -/
def activeCount (s : AssociationStore) (m a : String) : Nat :=
  s.rows.countP (fun r => r.medium = m && r.address = a && r.active)

/-- Modelled from the spec: AssociationStore.delete marks the active
association for the identifier deleted and appends a tombstone sequence entry,
reporting whether a row was removed; with no active association the store is
unchanged. -/
def deleteAssoc (s : AssociationStore) (m a : String) :
    AssociationStore × Bool :=
  if (getActive s m a).isSome then
    ({ rows := s.rows.map
          (fun r => if r.medium = m ∧ r.address = a then
                      { r with active := false }
                    else r) ++
          [{ medium := m, address := a, account_id := "",
             sequence_no := s.nextSeq, signed_payload := "",
             tombstone := true, active := false }],
       nextSeq := s.nextSeq + 1 }, true)
  else (s, false)

/-- Modelled from the spec: ThreepidBinder.bind constructs the association,
obtains its signature and upserts it; the returned row is the persisted,
signed association. -/
def bindAssoc (s : AssociationStore) (m a acct : String) :
    AssociationStore × AssocRow :=
  upsert s m a acct (signPayload m a acct)

/-- Whether the FederationVerifier approves an unbind request: an absent
claimed signature is rejected outright, a present one is checked by
verifyIdentityOwnership (abstracted as the verifier predicate v over the
account and the claimed signature). -/
def approves (v : String → String → Bool) (acct : String)
    (claimed : Option String) : Bool :=
  match claimed with
  | none => false
  | some sig => v acct sig

/-- Outcome of ThreepidBinder.unbind. -/
inductive UnbindResult where
  | success
  | authorizationFailure
  | notFound
deriving DecidableEq

/-- Modelled from the spec: ThreepidBinder.unbind. An unbind whose claimed
signature the verifier rejects returns AuthorizationFailure with the store
untouched; an approved one calls AssociationStore.delete, yielding NotFound
when no active association existed. -/
def unbind (v : String → String → Bool) (s : AssociationStore)
    (m a acct : String) (claimed : Option String) :
    UnbindResult × AssociationStore :=
  if approves v acct claimed then
    match deleteAssoc s m a with
    | (s', true) => (UnbindResult.success, s')
    | (s', false) => (UnbindResult.notFound, s')
  else (UnbindResult.authorizationFailure, s)

/-- A mutation of the associations table: a bind, or an unbind attempt whose
verifier outcome is recorded by the approved flag. -/
inductive StoreOp where
  | bind (m a acct : String)
  | unbind (m a : String) (approved : Bool)

/-- Apply one association-table operation. -/
def applyStoreOp (s : AssociationStore) : StoreOp → AssociationStore
  | .bind m a acct => (bindAssoc s m a acct).1
  | .unbind m a approved => if approved then (deleteAssoc s m a).1 else s

/-- The association store reached from a fresh server by a sequence of binds
and unbinds. -/
def runStoreOps (ops : List StoreOp) : AssociationStore :=
  ops.foldl applyStoreOp emptyAssocStore

/-- Modelled from the spec: AssociationStore.changesSince returns the rows
(including tombstones) whose sequence number is beyond the cursor, in table
order, up to the batch limit; an empty result means the caller is caught up. -/
def changesSince (s : AssociationStore) (cursor limit : Nat) :
    List AssocRow :=
  (s.rows.filter (fun r => cursor < r.sequence_no)).take limit

/-- The number of table rows a peer at the given cursor has not yet seen. -/
def countAbove (s : AssociationStore) (cursor : Nat) : Nat :=
  s.rows.countP (fun r => cursor < r.sequence_no)

/-- Modelled from the spec: a replication receiver's state, the signed
records applied so far, keyed by signed-record identity. -/
structure PeerServerState where
  applied : List AssocRow
deriving DecidableEq

/-- Modelled from the spec: applying one signed record to a peer is an
idempotent upsert keyed by signed-record identity — re-application of an
already-applied record is a no-op. -/
def applyRecord (p : PeerServerState) (r : AssocRow) : PeerServerState :=
  if r ∈ p.applied then p else { applied := p.applied ++ [r] }

/-- Modelled from the spec: applying a transmitted batch of signed records to
a peer, record by record. -/
def applyBatch (p : PeerServerState) (batch : List AssocRow) :
    PeerServerState :=
  batch.foldl applyRecord p

/-- Modelled from the spec: the per-peer replication cursor, the sequence
number last successfully pushed to that peer. -/
structure PeerCursor where
  last_pushed_sequence_no : Nat
deriving DecidableEq

/-- Modelled from the spec: one iteration of the replication pusher loop for
one peer: read the cursor, fetch changesSince up to the batch limit, and if
the batch is nonempty transmit it; on acknowledgment advance the cursor to
the last delivered sequence number, and on failure leave it unchanged so the
batch is retried. -/
def pusherStep (s : AssociationStore) (limit : Nat) (p : PeerCursor)
    (ack : Bool) : PeerCursor :=
  let batch := changesSince s p.last_pushed_sequence_no limit
  match batch.getLast? with
  | none => p
  | some r =>
      if ack then { last_pushed_sequence_no := r.sequence_no } else p

/-- Iterating the pusher loop n times against a fixed store, with every
transmission acknowledged. -/
def pusherRun (s : AssociationStore) (limit : Nat) (p : PeerCursor) :
    Nat → PeerCursor
  | 0 => p
  | n + 1 => pusherRun s limit (pusherStep s limit p true) n

/-- Claim C10: tonFromType returns 1 for short, 4 for long and 5 for alpha,
and raises an exception for every other originator type. -/
theorem tonFromType_spec (t : String) :
    (t = "short" → tonFromType t = Except.ok 1) ∧
    (t = "long" → tonFromType t = Except.ok 4) ∧
    (t = "alpha" → tonFromType t = Except.ok 5) ∧
    (t ≠ "short" → t ≠ "long" → t ≠ "alpha" →
      tonFromType t = Except.error ()) := by
  refine ⟨fun h => by subst h; rfl, fun h => by subst h; rfl,
    fun h => by subst h; rfl, fun h1 h2 h3 => ?_⟩
  simp [tonFromType, TONS, h1, h2, h3]

/-- Witness for tonFromType_spec at the concrete types short and gsm. -/
theorem tonFromType_spec_witness :
    tonFromType "short" = Except.ok 1 ∧ tonFromType "gsm" = Except.error () :=
  ⟨(tonFromType_spec "short").1 rfl,
   (tonFromType_spec "gsm").2.2.2 (by decide) (by decide) (by decide)⟩

/-- Claim C9 fails as stated: sendTextSMS does not raise exactly when a
gateway check fails, because an unknown originator type already raises while
the request is being built. With source type bogus and a fully successful
gateway reply (status 200, accepted 1, statusCode 1000) it still raises. -/
theorem sendTextSMS_claim_counterexample :
    ¬ ∀ (source : Option SmsSource) (resp : TeletopiaResponse),
        (sendTextSMS source resp = Except.ok () ↔
          (resp.code = 200 ∧ resp.accepted = 1 ∧
            (resp.statusCode = 1000 ∨ resp.statusCode = 2000))) := by
  intro h
  have h1 := (h (some { text := "M", type := "bogus" })
      { code := 200, accepted := 1, statusCode := 1000 }).mpr
      ⟨rfl, rfl, Or.inl rfl⟩
  have h2 : sendTextSMS (some { text := "M", type := "bogus" })
      { code := 200, accepted := 1, statusCode := 1000 } = Except.error () := rfl
  rw [h2] at h1
  exact Except.noConfusion h1

/-- Claim C9, amended: for the default source, and for any source whose type
is one of short, long and alpha, sendTextSMS raises an exception iff the
gateway HTTP status is not 200, or the first response entry has accepted ≠ 1,
or its statusCode is neither 1000 nor 2000; it returns normally exactly when
all three checks pass. -/
theorem sendTextSMS_spec (source : Option SmsSource) (resp : TeletopiaResponse)
    (hsrc : ∀ s, source = some s →
      s.type = "short" ∨ s.type = "long" ∨ s.type = "alpha") :
    sendTextSMS source resp = Except.ok () ↔
      (resp.code = 200 ∧ resp.accepted = 1 ∧
        (resp.statusCode = 1000 ∨ resp.statusCode = 2000)) := by
  have hton : ∃ n, tonFromType (match source with
      | none => ({ text := "Matrix", type := "alpha" } : SmsSource)
      | some s => s).type = Except.ok n := by
    cases source with
    | none => exact ⟨5, rfl⟩
    | some s =>
        rcases hsrc s rfl with h | h | h <;>
          simp only [h] <;> exact ⟨_, rfl⟩
  obtain ⟨n, hn⟩ := hton
  simp only [sendTextSMS, hn]
  split_ifs with h1 h2 h3 <;> simp_all

/-- Witness for sendTextSMS_spec: the default source with a fully successful
gateway reply returns normally. -/
theorem sendTextSMS_spec_witness :
    sendTextSMS none { code := 200, accepted := 1, statusCode := 2000 } =
      Except.ok () :=
  (sendTextSMS_spec none { code := 200, accepted := 1, statusCode := 2000 }
      (fun _ hs => Option.noConfusion hs)).mpr ⟨rfl, rfl, Or.inr rfl⟩

/-- The redaction model reproduces every output asserted by the invite tests:
the plain, short, separator, trailing-separator, separator-only, repeated
separator and fallback-configuration cases. -/
theorem redact_matches_invite_tests :
    redact_email_address none 6 8 "1234567890@1234567890.com".data
        = "123456...@12345678...".data ∧
    redact_email_address none 6 8 "1@1.com".data = "...@1...".data ∧
    redact_email_address (some '-') 6 8
        "johnathon-jingle-smithington@john-smith.notarealtld".data
        = "johnat...-jin...-smithi...@john-smi...".data ∧
    redact_email_address (some '-') 6 8 "applejack-@someexample.com".data
        = "applej...-@someexam...".data ∧
    redact_email_address (some '-') 6 8 "-@someexample.com".data
        = "-@someexam...".data ∧
    redact_email_address (some '-') 3 3 "donuld--fauntleboy--puck@disnie.com".data
        = "don...--fau...--puc...@dis...".data ∧
    redact_email_address none 9 4 "1234567890@1234567890.com".data
        = "123456789...@1234...".data := by
  refine ⟨by decide, by decide, by decide, by decide, by decide, by decide,
    by decide⟩

/-- Claim C4: in the tested redaction case with username separator '-' and a
configured username reveal count of 6, the length-6 component jingle of
johnathon-jingle-smithington@john-smith.notarealtld is revealed as jin...,
that is 3 characters — fewer than the 6 of the general per-segment rule, and
also fewer than min(configured, length - 1) = 5. -/
theorem redact_jingle_case :
    redact_email_address (some '-') 6 8
        "johnathon-jingle-smithington@john-smith.notarealtld".data
      = "johnat...-jin...-smithi...@john-smi...".data ∧
    redact "jingle".data 6 = "jin...".data ∧
    ("jingle".data).length = 6 ∧
    ("jin".data).length = 3 ∧
    3 < 6 ∧ 3 < min 6 (("jingle".data).length - 1) := by
  refine ⟨by decide, by decide, by decide, by decide, by decide, by decide⟩

/-- Claim C1: after storeToken for an identifier followed by a bind of the
same identifier whose onBind notification is delivered successfully, the
stored token is absent from the invite-token table under the default policy,
and still present — exactly that one row, now marked sent — when token
retention is configured (delete_tokens_on_bind = false). -/
theorem invite_token_delete_on_bind (m a room sender tok : String) (now : Nat) :
    tokenRows (processInvites delete_tokens_on_bind_default (fun _ => true) now
        (storeToken { invite_tokens := [] } m a room sender tok) m a).1 m a
      = [] ∧
    tokenRows (processInvites false (fun _ => true) now
        (storeToken { invite_tokens := [] } m a room sender tok) m a).1 m a
      = [{ medium := m, address := a, room_id := room, sender := sender,
           token := tok, sent_ts := some now }] := by
  constructor <;>
    simp [processInvites, storeToken, getTokens, tokenRows,
      delete_tokens_on_bind_default, List.filter, List.contains]

/-- Claim C6: an invite token whose sent_ts is non-null is never redelivered.
It is excluded from the delivery list of every invite-resolution pass, since
getTokens filters out sent tokens, and such a pass never resets a retained
row's sent_ts to null, so every pending row afterwards was already pending
before — delivered tokens stay undeliverable under retention as well. -/
theorem sent_token_never_redelivered (t : InviteToken) (ht : t.sent_ts ≠ none)
    (del : Bool) (f : InviteToken → Bool) (now : Nat)
    (s : JoinTokenStore) (m a : String) :
    t ∉ (processInvites del f now s m a).2 ∧
    ∀ u ∈ (processInvites del f now s m a).1.invite_tokens,
      u.sent_ts = none → u ∈ s.invite_tokens := by
  constructor
  · intro hmem
    have h2 : t ∈ getTokens s m a := hmem
    simp only [getTokens, List.mem_filter, Bool.and_eq_true,
      decide_eq_true_eq, Option.isNone_iff_eq_none] at h2
    exact ht h2.2.2
  · intro u hu hnone
    cases del with
    | true =>
        simp only [processInvites, if_true] at hu
        exact (List.mem_filter.mp hu).1
    | false =>
        simp only [processInvites, Bool.false_eq_true, if_false] at hu
        rw [List.mem_map] at hu
        obtain ⟨x, hx, hxe⟩ := hu
        by_cases hc : ((getTokens s m a).filter f).contains x
        · rw [if_pos hc] at hxe
          rw [← hxe] at hnone
          exact absurd hnone (Option.noConfusion)
        · rw [if_neg hc] at hxe
          exact hxe ▸ hx

/-- Witness for sent_token_never_redelivered: a concrete already-sent token
retained in the table is not in the delivery list of a later bind. -/
theorem sent_token_never_redelivered_witness :
    ({ medium := "email", address := "john@example.com", room_id := "!r:x",
       sender := "@jane:x", token := "sometoken",
       sent_ts := some 5 } : InviteToken) ∉
      (processInvites true (fun _ => true) 9
        { invite_tokens := [{ medium := "email",
                              address := "john@example.com",
                              room_id := "!r:x", sender := "@jane:x",
                              token := "sometoken",
                              sent_ts := some 5 }] }
        "email" "john@example.com").2 :=
  (sent_token_never_redelivered
    { medium := "email", address := "john@example.com", room_id := "!r:x",
      sender := "@jane:x", token := "sometoken", sent_ts := some 5 }
    (by decide) true (fun _ => true) 9
    { invite_tokens := [{ medium := "email",
                          address := "john@example.com",
                          room_id := "!r:x", sender := "@jane:x",
                          token := "sometoken",
                          sent_ts := some 5 }] }
    "email" "john@example.com").1

/-- Applying a record a peer has already applied is a no-op. -/
theorem applyRecord_of_mem {p : PeerServerState} {r : AssocRow}
    (h : r ∈ p.applied) : applyRecord p r = p := by
  simp [applyRecord, h]

/-- Applying a record preserves every previously applied record. -/
theorem mem_applyRecord {p : PeerServerState} {r : AssocRow} (r' : AssocRow)
    (h : r ∈ p.applied) : r ∈ (applyRecord p r').applied := by
  unfold applyRecord
  split
  · exact h
  · exact List.mem_append_left _ h

/-- A record is applied after applyRecord runs on it. -/
theorem mem_self_applyRecord (p : PeerServerState) (r : AssocRow) :
    r ∈ (applyRecord p r).applied := by
  unfold applyRecord
  split
  · assumption
  · exact List.mem_append_right _ (List.mem_singleton.mpr rfl)

/-- Applying a batch preserves every previously applied record. -/
theorem mem_applyBatch_of_mem {p : PeerServerState} {r : AssocRow}
    (batch : List AssocRow) (h : r ∈ p.applied) :
    r ∈ (applyBatch p batch).applied := by
  induction batch generalizing p with
  | nil => exact h
  | cons x xs ih => exact ih (mem_applyRecord x h)

/-- Every record of a batch is applied after the batch is applied. -/
theorem mem_applyBatch {r : AssocRow} :
    ∀ {batch : List AssocRow} {p : PeerServerState}, r ∈ batch →
      r ∈ (applyBatch p batch).applied := by
  intro batch
  induction batch with
  | nil => intro p h; cases h
  | cons x xs ih =>
      intro p h
      rw [List.mem_cons] at h
      rcases h with rfl | hmem
      · exact mem_applyBatch_of_mem xs (mem_self_applyRecord p r)
      · exact ih hmem

/-- A batch of already-applied records leaves the peer unchanged. -/
theorem applyBatch_of_all_mem {p : PeerServerState} {batch : List AssocRow}
    (h : ∀ r ∈ batch, r ∈ p.applied) : applyBatch p batch = p := by
  induction batch with
  | nil => rfl
  | cons x xs ih =>
      have hx : applyRecord p x = p := applyRecord_of_mem (h x (.head xs))
      show applyBatch (applyRecord p x) xs = p
      rw [hx]
      exact ih (fun r hr => h r (.tail x hr))

/-- Claim C5: replication application is idempotent — applying the same batch
of signed records to a peer twice yields the same peer state as applying it
once, because re-application keyed by signed-record identity is a no-op. -/
theorem replication_idempotent (p : PeerServerState) (batch : List AssocRow) :
    applyBatch (applyBatch p batch) batch = applyBatch p batch :=
  applyBatch_of_all_mem (fun _ hr => mem_applyBatch hr)

/-- Claim C3: an unbind whose claimed signature the verifier rejects — absent
or invalid — returns AuthorizationFailure and leaves the store, and hence
getActive for the identifier, unchanged; conversely any unbind that changes
getActive for the identifier was verifier-approved. -/
theorem unbind_requires_proof (v : String → String → Bool)
    (s : AssociationStore) (m a acct : String) (claimed : Option String) :
    (approves v acct claimed = false →
      (unbind v s m a acct claimed).1 = UnbindResult.authorizationFailure ∧
      (unbind v s m a acct claimed).2 = s) ∧
    (getActive (unbind v s m a acct claimed).2 m a ≠ getActive s m a →
      approves v acct claimed = true) := by
  constructor
  · intro h
    simp [unbind, h]
  · intro hchanged
    by_cases h : approves v acct claimed = true
    · exact h
    · rw [Bool.not_eq_true] at h
      exact absurd (by simp [unbind, h]) hchanged

/-- Witness for unbind_requires_proof: with a verifier that rejects every
signature, a concrete unbind returns AuthorizationFailure and the store is
untouched. -/
theorem unbind_requires_proof_witness :
    (unbind (fun _ _ => false) emptyAssocStore "email" "john@example.com"
        "@john:example.com" (some "sig")).1
      = UnbindResult.authorizationFailure ∧
    (unbind (fun _ _ => false) emptyAssocStore "email" "john@example.com"
        "@john:example.com" (some "sig")).2 = emptyAssocStore :=
  (unbind_requires_proof (fun _ _ => false) emptyAssocStore "email"
    "john@example.com" "@john:example.com" (some "sig")).1 rfl

/-- After an upsert, the superseding pass leaves no active row for the bind's
identifier among the pre-existing rows. -/
theorem supersede_inactive (s : AssociationStore) (m a : String)
    (r : AssocRow)
    (hr : r ∈ s.rows.map (fun r => if r.medium = m ∧ r.address = a then
        { r with active := false } else r)) :
    ¬ (r.medium = m && r.address = a && r.active) := by
  rw [List.mem_map] at hr
  obtain ⟨x, _, rfl⟩ := hr
  by_cases hk : x.medium = m ∧ x.address = a
  · simp [hk]
  · simp only [if_neg hk]
    simp only [Bool.and_eq_true, decide_eq_true_eq]
    intro h
    exact hk ⟨h.1.1, h.1.2⟩

/-- The superseding pass does not change whether a row counts as active for a
different identifier. -/
theorem supersede_other_key (m a m' a' : String) (hk : ¬ (m' = m ∧ a' = a))
    (x : AssocRow) :
    ((if x.medium = m ∧ x.address = a then { x with active := false }
      else x).medium = m' &&
     (if x.medium = m ∧ x.address = a then { x with active := false }
      else x).address = a' &&
     (if x.medium = m ∧ x.address = a then { x with active := false }
      else x).active)
      = (x.medium = m' && x.address = a' && x.active) := by
  by_cases hx : x.medium = m ∧ x.address = a
  · simp only [if_pos hx]
    by_cases hx' : x.medium = m' ∧ x.address = a'
    · exact absurd ⟨hx'.1.symm.trans hx.1, hx'.2.symm.trans hx.2⟩ hk
    · rw [Decidable.not_and_iff_or_not] at hx'
      rcases hx' with h | h <;> simp [h]
  · simp [if_neg hx]

/-- activeCount after an upsert: exactly one active row for the bind's
identifier, and no change for any other identifier. -/
theorem activeCount_upsert (s : AssociationStore) (m a acct payload m' a' :
    String) :
    activeCount (upsert s m a acct payload).1 m' a'
      = if m' = m ∧ a' = a then 1 else activeCount s m' a' := by
  simp only [activeCount, upsert, List.countP_append, List.countP_map]
  by_cases hk : m' = m ∧ a' = a
  · obtain ⟨rfl, rfl⟩ := hk
    rw [if_pos ⟨rfl, rfl⟩]
    have h0 : s.rows.countP ((fun r => r.medium = m' && r.address = a' &&
        r.active) ∘ (fun r => if r.medium = m' ∧ r.address = a' then
          { r with active := false } else r)) = 0 := by
      rw [List.countP_eq_zero]
      intro x hx
      exact supersede_inactive s m' a' _
        (List.mem_map.mpr ⟨x, hx, rfl⟩)
    rw [h0]
    simp [List.countP_cons]
  · rw [if_neg hk]
    have h1 : s.rows.countP ((fun r => r.medium = m' && r.address = a' &&
        r.active) ∘ (fun r => if r.medium = m ∧ r.address = a then
          { r with active := false } else r)) =
        s.rows.countP (fun r => r.medium = m' && r.address = a' && r.active) :=
      List.countP_congr (fun x _ => by
        rw [Function.comp_apply, supersede_other_key m a m' a' hk x])
    rw [h1]
    have h2 : List.countP (fun r => r.medium = m' && r.address = a' &&
        r.active)
        [({ medium := m, address := a, account_id := acct,
            sequence_no := s.nextSeq, signed_payload := payload,
            tombstone := false, active := true } : AssocRow)] = 0 := by
      rw [List.countP_eq_zero]
      intro x hx
      rw [List.mem_singleton] at hx
      subst hx
      simp only [Bool.and_eq_true, decide_eq_true_eq]
      intro h
      exact hk ⟨h.1.1.symm, h.1.2.symm⟩
    rw [h2]
    exact Nat.add_zero _

/-- activeCount after a delete: no active row is left for the identifier, and
no other identifier is affected. -/
theorem activeCount_deleteAssoc (s : AssociationStore) (m a m' a' : String) :
    activeCount (deleteAssoc s m a).1 m' a'
      = if m' = m ∧ a' = a then 0 else activeCount s m' a' := by
  unfold deleteAssoc
  split
  · simp only [activeCount, List.countP_append, List.countP_map]
    have htomb : List.countP (fun r => r.medium = m' && r.address = a' &&
        r.active)
        [({ medium := m, address := a, account_id := "",
            sequence_no := s.nextSeq, signed_payload := "",
            tombstone := true, active := false } : AssocRow)] = 0 := by
      simp [List.countP_cons]
    rw [htomb, Nat.add_zero]
    by_cases hk : m' = m ∧ a' = a
    · obtain ⟨rfl, rfl⟩ := hk
      rw [if_pos ⟨rfl, rfl⟩, List.countP_eq_zero]
      intro x hx
      exact supersede_inactive s m' a' _ (List.mem_map.mpr ⟨x, hx, rfl⟩)
    · rw [if_neg hk]
      exact List.countP_congr (fun x _ => by
        rw [Function.comp_apply, supersede_other_key m a m' a' hk x])
  · rename_i hact
    by_cases hk : m' = m ∧ a' = a
    · obtain ⟨rfl, rfl⟩ := hk
      rw [if_pos ⟨rfl, rfl⟩]
      rw [Option.not_isSome_iff_eq_none, getActive, List.find?_eq_none] at hact
      exact List.countP_eq_zero.mpr hact
    · rw [if_neg hk]

/-- After an upsert, getActive for the bind's identifier returns exactly the
row the upsert inserted. -/
theorem getActive_upsert (s : AssociationStore) (m a acct payload : String) :
    getActive (upsert s m a acct payload).1 m a
      = some (upsert s m a acct payload).2 := by
  simp only [getActive, upsert, List.find?_append]
  have h0 : List.find? (fun r => r.medium = m && r.address = a && r.active)
      (s.rows.map (fun r => if r.medium = m ∧ r.address = a then
        { r with active := false } else r)) = none := by
    rw [List.find?_eq_none]
    intro x hx
    exact supersede_inactive s m a x hx
  rw [h0]
  simp

/-- One bind or unbind preserves the at-most-one-active-row invariant. -/
theorem applyStoreOp_activeCount_le_one (s : AssociationStore)
    (hs : ∀ m a, activeCount s m a ≤ 1) (op : StoreOp) (m a : String) :
    activeCount (applyStoreOp s op) m a ≤ 1 := by
  cases op with
  | bind m0 a0 acct =>
      show activeCount (bindAssoc s m0 a0 acct).1 m a ≤ 1
      rw [bindAssoc, activeCount_upsert]
      split
      · exact Nat.le_refl 1
      · exact hs m a
  | unbind m0 a0 approved =>
      cases approved with
      | false => exact hs m a
      | true =>
          show activeCount (deleteAssoc s m0 a0).1 m a ≤ 1
          rw [activeCount_deleteAssoc]
          split
          · exact Nat.zero_le 1
          · exact hs m a

/-- The at-most-one-active-row invariant holds along any operation sequence. -/
theorem foldl_activeCount_le_one :
    ∀ (ops : List StoreOp) (s : AssociationStore),
      (∀ m a, activeCount s m a ≤ 1) →
      ∀ m a, activeCount (List.foldl applyStoreOp s ops) m a ≤ 1 := by
  intro ops
  induction ops with
  | nil => exact fun s hs => hs
  | cons op ops ih =>
      intro s hs m a
      exact ih (applyStoreOp s op)
        (fun m a => applyStoreOp_activeCount_le_one s hs op m a) m a

/-- Claim C2: along every sequence of binds and unbinds, an identifier has at
most one active, getActive-visible association at any point, and a further
bind makes getActive return exactly the association produced by its upsert —
re-binding supersedes rather than appends. -/
theorem single_active_binding (ops : List StoreOp) (m a : String) :
    activeCount (runStoreOps ops) m a ≤ 1 ∧
    ∀ acct,
      getActive (applyStoreOp (runStoreOps ops) (StoreOp.bind m a acct)) m a
        = some (bindAssoc (runStoreOps ops) m a acct).2 := by
  constructor
  · exact foldl_activeCount_le_one ops emptyAssocStore
      (fun m a => Nat.zero_le 1) m a
  · intro acct
    show getActive (bindAssoc (runStoreOps ops) m a acct).1 m a = _
    exact getActive_upsert (runStoreOps ops) m a acct
      (signPayload m a acct)

/-- A row returned by changesSince is a table row beyond the cursor. -/
theorem mem_changesSince {s : AssociationStore} {cursor limit : Nat}
    {r : AssocRow} (h : r ∈ changesSince s cursor limit) :
    r ∈ s.rows ∧ cursor < r.sequence_no := by
  have h2 := List.take_subset _ _ h
  rw [List.mem_filter] at h2
  exact ⟨h2.1, by simpa using h2.2⟩

/-- One pusher iteration never moves the cursor backwards. -/
theorem pusherStep_mono (s : AssociationStore) (limit : Nat) (p : PeerCursor)
    (ack : Bool) :
    p.last_pushed_sequence_no ≤
      (pusherStep s limit p ack).last_pushed_sequence_no := by
  unfold pusherStep
  cases hlast : (changesSince s p.last_pushed_sequence_no limit).getLast? with
  | none => simp [hlast]
  | some r =>
      simp only [hlast]
      cases ack with
      | false => exact Nat.le_refl _
      | true =>
          simp only [if_true]
          exact Nat.le_of_lt
            (mem_changesSince (List.mem_of_getLast?_eq_some hlast)).2

/-- A failed transmission leaves the cursor unchanged. -/
theorem pusherStep_fail (s : AssociationStore) (limit : Nat) (p : PeerCursor) :
    pusherStep s limit p false = p := by
  unfold pusherStep
  cases hlast : (changesSince s p.last_pushed_sequence_no limit).getLast? with
  | none => simp [hlast]
  | some r => simp [hlast]

/-- The cursor never decreases over any number of pusher iterations. -/
theorem pusherRun_mono (s : AssociationStore) (limit : Nat) :
    ∀ (n : Nat) (p : PeerCursor),
      p.last_pushed_sequence_no ≤
        (pusherRun s limit p n).last_pushed_sequence_no := by
  intro n
  induction n with
  | zero => exact fun p => Nat.le_refl _
  | succ n ih =>
      intro p
      exact Nat.le_trans (pusherStep_mono s limit p true)
        (ih (pusherStep s limit p true))

/-- Counting with a weaker predicate that some list member fails strictly
exceeds counting with a stronger one that the member meets. -/
theorem countP_lt_of_mem {α : Type} {l : List α} {p q : α → Bool} {x : α}
    (hx : x ∈ l) (hpx : p x = false) (hqx : q x = true)
    (himp : ∀ y ∈ l, p y = true → q y = true) :
    l.countP p < l.countP q := by
  induction l with
  | nil => cases hx
  | cons y ys ih =>
      rw [List.mem_cons] at hx
      rw [List.countP_cons, List.countP_cons]
      rcases hx with rfl | hx
      · have hmono := List.countP_mono_left
          (fun z hz => himp z (List.mem_cons_of_mem x hz))
        simp only [hpx, hqx, Bool.false_eq_true, if_false, if_true]
        omega
      · have hlt := ih hx (fun z hz => himp z (List.mem_cons_of_mem y hz))
        have hhead : (if p y = true then 1 else 0) ≤
            (if q y = true then 1 else 0) := by
          by_cases hpy : p y = true
          · rw [if_pos hpy, if_pos (himp y (List.mem_cons_self y ys) hpy)]
          · rw [if_neg hpy]
            exact Nat.zero_le _
        omega

/-- Advancing the cursor to the last delivered sequence number strictly
decreases the number of unseen rows. -/
theorem countAbove_step_lt (s : AssociationStore) {cursor limit : Nat}
    {r : AssocRow}
    (hlast : (changesSince s cursor limit).getLast? = some r) :
    countAbove s r.sequence_no < countAbove s cursor := by
  have hr := mem_changesSince (List.mem_of_getLast?_eq_some hlast)
  unfold countAbove
  refine countP_lt_of_mem hr.1 ?_ ?_ ?_
  · simp
  · simpa using hr.2
  · intro y _ hy
    simp only [decide_eq_true_eq] at hy ⊢
    exact Nat.lt_trans hr.2 hy

/-- With acknowledged transmissions against a fixed store, the pusher loop
reaches a cursor from which changesSince is empty. -/
theorem pusherRun_caught_up :
    ∀ (k : Nat) (s : AssociationStore) (limit : Nat), 0 < limit →
      ∀ (p : PeerCursor), countAbove s p.last_pushed_sequence_no ≤ k →
        ∃ n, changesSince s
          (pusherRun s limit p n).last_pushed_sequence_no limit = [] := by
  intro k
  induction k with
  | zero =>
      intro s limit hl p hc
      refine ⟨0, ?_⟩
      have hfilter : s.rows.filter
          (fun r => p.last_pushed_sequence_no < r.sequence_no) = [] := by
        rw [← List.length_eq_zero]
        rw [← List.countP_eq_length_filter]
        exact Nat.le_zero.mp hc
      show changesSince s p.last_pushed_sequence_no limit = []
      rw [changesSince, hfilter, List.take_nil]
  | succ k ih =>
      intro s limit hl p hc
      cases hlast : (changesSince s p.last_pushed_sequence_no limit).getLast?
        with
      | none => exact ⟨0, List.getLast?_eq_none_iff.mp hlast⟩
      | some r =>
          have hlt := countAbove_step_lt s hlast
          have hstep : pusherStep s limit p true
              = { last_pushed_sequence_no := r.sequence_no } := by
            simp [pusherStep, hlast]
          obtain ⟨n, hn⟩ := ih s limit hl
            { last_pushed_sequence_no := r.sequence_no }
            (by show countAbove s r.sequence_no ≤ k; omega)
          refine ⟨n + 1, ?_⟩
          show changesSince s
            (pusherRun s limit (pusherStep s limit p true) n).last_pushed_sequence_no
            limit = []
          rw [hstep]
          exact hn

/-- Claim C7: the per-peer replication cursor never decreases across pusher
iterations — it advances only on acknowledgment and is left unchanged on
failure — and with the peer repeatedly acknowledging, changesSince from the
last-seen cursor eventually returns an empty result: the peer is caught up. -/
theorem cursor_monotone_caught_up (s : AssociationStore) (limit : Nat)
    (hl : 0 < limit) (p : PeerCursor) :
    (∀ ack, p.last_pushed_sequence_no ≤
        (pusherStep s limit p ack).last_pushed_sequence_no) ∧
    pusherStep s limit p false = p ∧
    (∀ n, p.last_pushed_sequence_no ≤
        (pusherRun s limit p n).last_pushed_sequence_no) ∧
    ∃ n, changesSince s
        (pusherRun s limit p n).last_pushed_sequence_no limit = [] :=
  ⟨fun ack => pusherStep_mono s limit p ack,
   pusherStep_fail s limit p,
   fun n => pusherRun_mono s limit n p,
   pusherRun_caught_up (countAbove s p.last_pushed_sequence_no) s limit hl p
     (Nat.le_refl _)⟩

/-- Witness for cursor_monotone_caught_up at a concrete store and peer. -/
theorem cursor_monotone_caught_up_witness :
    pusherStep emptyAssocStore 10 { last_pushed_sequence_no := 0 } false
      = { last_pushed_sequence_no := 0 } ∧
    ∃ n, changesSince emptyAssocStore
        (pusherRun emptyAssocStore 10 { last_pushed_sequence_no := 0 }
          n).last_pushed_sequence_no 10 = [] :=
  ⟨(cursor_monotone_caught_up emptyAssocStore 10 (by decide)
      { last_pushed_sequence_no := 0 }).2.1,
   (cursor_monotone_caught_up emptyAssocStore 10 (by decide)
      { last_pushed_sequence_no := 0 }).2.2.2⟩

/-- A list ending in a non-digit character is not all digits. -/
theorem all_isDigit_false_of_getLast {l : List Char} {u : Char}
    (hlast : l.getLast? = some u) (hu : u.isDigit = false) :
    l.all Char.isDigit = false :=
  List.all_eq_false.mpr
    ⟨u, List.mem_of_getLast?_eq_some hlast, by simp [hu]⟩

/-- A list ending in a non-digit character is rejected by pyIntCore. -/
theorem pyIntCore_eq_none {l : List Char} {u : Char}
    (hlast : l.getLast? = some u) (hu : u.isDigit = false) :
    pyIntCore l = none := by
  cases l with
  | nil => simp at hlast
  | cons c rest =>
      unfold pyIntCore
      dsimp only
      by_cases hc : c = '+'
      · rw [if_pos hc]
        cases rest with
        | nil => simp
        | cons d ds =>
            have hl2 : (d :: ds).getLast? = some u := by
              rwa [List.getLast?_cons_cons] at hlast
            rw [all_isDigit_false_of_getLast hl2 hu]
            simp
      · rw [if_neg hc]
        by_cases hm : c = '-'
        · rw [if_pos hm]
          cases rest with
          | nil => simp
          | cons d ds =>
              have hl2 : (d :: ds).getLast? = some u := by
                rwa [List.getLast?_cons_cons] at hlast
              rw [all_isDigit_false_of_getLast hl2 hu]
              simp
        · rw [if_neg hm]
          rw [all_isDigit_false_of_getLast hlast hu]
          simp

/-- dropWhile distributes over appending a character it does not drop. -/
theorem dropWhile_append_singleton {p : Char → Bool} {u : Char}
    (hu : p u = false) (t : List Char) :
    (t ++ [u]).dropWhile p = t.dropWhile p ++ [u] := by
  induction t with
  | nil => simp [List.dropWhile_cons, hu]
  | cons c t ih =>
      rw [List.cons_append, List.dropWhile_cons, List.dropWhile_cons]
      by_cases hc : p c = true
      · simp [hc, ih]
      · simp [hc]

/-- Stripping whitespace around a list ending in a non-whitespace character
keeps that character last. -/
theorem stripPySpace_append_singleton {u : Char}
    (hu : isPySpace u = false) (t : List Char) :
    stripPySpace (t ++ [u]) = t.dropWhile isPySpace ++ [u] := by
  unfold stripPySpace
  rw [dropWhile_append_singleton hu t, List.reverse_append,
    List.reverse_singleton, List.singleton_append, List.dropWhile_cons]
  simp [hu]

/-- Appending a character that is neither a digit nor whitespace makes Python
int fail. -/
theorem pyInt_append_unit {t : List Char} {u : Char}
    (hdigit : u.isDigit = false) (hspace : isPySpace u = false) :
    pyInt (t ++ [u]) = none := by
  rw [pyInt, stripPySpace_append_singleton hspace]
  exact pyIntCore_eq_none (List.getLast?_concat _) hdigit

/-- A unit-suffix character is neither a digit nor whitespace. -/
theorem sizes_char_props {u : Char} {k : Int} (h : sizes u = some k) :
    u.isDigit = false ∧ isPySpace u = false := by
  unfold sizes at h
  split_ifs at h with h1 h2 h3 h4 h5 h6
  · subst h1; exact ⟨by decide, by decide⟩
  · subst h2; exact ⟨by decide, by decide⟩
  · subst h3; exact ⟨by decide, by decide⟩
  · subst h4; exact ⟨by decide, by decide⟩
  · subst h5; exact ⟨by decide, by decide⟩
  · subst h6; exact ⟨by decide, by decide⟩

/-- Claim C8: parse_duration returns None iff the input is empty; on a string
Python int accepts it returns that integer; on a string whose last character
is one of the unit suffixes s, m, h, d, w, y with an int-parsable prefix it
returns the prefix scaled by the unit in milliseconds (1000, 60000, 3600000,
86400000, 604800000 and 31536000000 respectively, per the sizes table); and
on every other nonempty string it raises ValueError. -/
theorem parse_duration_spec (s : List Char) :
    (parse_duration s = Except.ok none ↔ s = []) ∧
    (∀ n : Int, pyInt s = some n → parse_duration s = Except.ok (some n)) ∧
    (∀ (t : List Char) (u : Char) (k n : Int),
        s = t ++ [u] → sizes u = some k → pyInt t = some n →
        parse_duration s = Except.ok (some (n * k))) ∧
    (s ≠ [] → pyInt s = none →
      (∀ (t : List Char) (u : Char), s = t ++ [u] →
        sizes u = none ∨ pyInt t = none) →
      parse_duration s = Except.error ()) := by
  refine ⟨⟨?_, ?_⟩, ?_, ?_, ?_⟩
  · intro h
    by_contra hne
    have hem : s.isEmpty = false := List.isEmpty_eq_false.mpr hne
    rw [parse_duration, hem] at h
    simp only [Bool.false_eq_true, if_false] at h
    cases hpy : pyInt s with
    | some n => simp [hpy] at h
    | none =>
        simp only [hpy] at h
        cases hg : s.getLast? with
        | none => simp [hg] at h
        | some suffix =>
            simp only [hg] at h
            cases hsz : sizes suffix with
            | none => simp [hsz] at h
            | some size =>
                simp only [hsz] at h
                cases hpy2 : pyInt s.dropLast with
                | none => simp [hpy2] at h
                | some n => simp [hpy2] at h
  · intro h
    subst h
    rfl
  · intro n hpy
    have hne : s.isEmpty = false := by
      cases s with
      | nil => rw [show pyInt [] = none from rfl] at hpy; cases hpy
      | cons c cs => rfl
    rw [parse_duration, hne]
    simp only [Bool.false_eq_true, if_false, hpy]
  · rintro t u k n rfl hsz hpy
    obtain ⟨hd, hs⟩ := sizes_char_props hsz
    have hnone : pyInt (t ++ [u]) = none := pyInt_append_unit hd hs
    have hne : (t ++ [u]).isEmpty = false :=
      List.isEmpty_eq_false.mpr (by simp)
    rw [parse_duration, hne]
    simp only [Bool.false_eq_true, if_false, hnone, List.getLast?_concat,
      List.dropLast_concat, hsz, hpy]
  · intro hne hpy hexcl
    rcases List.eq_nil_or_concat s with rfl | ⟨t, u, rfl⟩
    · exact absurd rfl hne
    · simp only [List.concat_eq_append] at hpy hexcl ⊢
      have hne2 : (t ++ [u]).isEmpty = false :=
        List.isEmpty_eq_false.mpr (by simp)
      rcases hexcl t u rfl with hsz | hpyt
      · rw [parse_duration, hne2]
        simp only [Bool.false_eq_true, if_false, hpy, List.getLast?_concat,
          hsz]
      · cases hsz2 : sizes u with
        | none =>
            rw [parse_duration, hne2]
            simp only [Bool.false_eq_true, if_false, hpy,
              List.getLast?_concat, hsz2]
        | some k =>
            rw [parse_duration, hne2]
            simp only [Bool.false_eq_true, if_false, hpy,
              List.getLast?_concat, hsz2, List.dropLast_concat, hpyt]

/-- Witness for parse_duration_spec: the empty string, a plain integer, a
unit-suffixed duration and a malformed string. -/
theorem parse_duration_spec_witness :
    parse_duration [] = Except.ok none ∧
    parse_duration "250".data = Except.ok (some 250) ∧
    parse_duration "2w".data = Except.ok (some (2 * 604800000)) ∧
    parse_duration "x".data = Except.error () := by
  refine ⟨(parse_duration_spec []).1.mpr rfl, ?_, ?_, ?_⟩
  · exact (parse_duration_spec "250".data).2.1 250 rfl
  · exact (parse_duration_spec "2w".data).2.2.1 "2".data 'w'
      604800000 2 rfl rfl rfl
  · refine (parse_duration_spec "x".data).2.2.2 (by decide) rfl ?_
    intro t u h
    cases t with
    | nil =>
        have hu : u = 'x' := by
          have := congrArg (fun l => l.getLast?) h
          simpa using this.symm
        subst hu
        exact Or.inl rfl
    | cons c t' =>
        have := congrArg List.length h
        simp at this

end Sydent
